import Mathlib

/-!
Shallow embedding of the redaction-removal core of `unredact.py`.

The operand values that the Python code feeds to `float(...)` are modelled
as `Token`s: a token is either a number (a rational) or a non-numeric
object on which `float` raises.  A `try/except` around `float` becomes a
`match` on `parseNum`; an uncaught `float`/index failure becomes
`Except.error`.
-/

namespace Unredact

/-- An operand of a content-stream operation or a value in an
annotation dictionary: either numeric or an object `float` rejects. -/
inductive Token where
  | num (val : ℚ)
  | nonNum
deriving DecidableEq

/-- `float(t)`: `some v` when the conversion succeeds, `none` when it raises. -/
def parseNum : Token → Option ℚ
  | .num v => some v
  | .nonNum => none

/-- The fields of an annotation dictionary read by the filter:
`/Subtype`, `/IC`, `/C`, `/CA`, `/ca`.  `none` means the key is absent. -/
structure Annot where
  subtype : Option String
  IC : Option (List Token)
  C : Option (List Token)
  CA : Option Token
  ca : Option Token
deriving DecidableEq

/-- A content-stream operation: operand list and operator tag. -/
inductive Operator where
  | q | Q | g | rg | re
  | m | l | c | v | y | h
  | f | fStar | F | B | BStar
  | n | W | WStar | S | s
  | other (tag : String)
deriving DecidableEq

structure Op where
  operands : List Token
  operator : Operator
deriving DecidableEq

/-- A page: an optional annotation list (`/Annots`) and an optional
content stream, already decoded to its operation sequence. -/
structure Page where
  annots : Option (List Annot)
  contents : Option (List Op)
deriving DecidableEq

/-- Python `x or y` on the two optional color arrays: a falsy first
argument (absent key or empty array) falls through to the second. -/
def pyOr (a b : Option (List Token)) : Option (List Token) :=
  match a with
  | some l => if l.isEmpty then b else some l
  | none => b

/-- `_is_black(color)`: `None` is not black; otherwise
`all(float(c) == 0.0 for c in color)` with any `float` failure caught
and mapped to `False`. -/
def _is_black : Option (List Token) → Bool
  | none => false
  | some color =>
    match color.mapM parseNum with
    | some vals => vals.all (fun cv => cv == 0)
    | none => false

/-- `_looks_like_black_box(annot)`.  Subtype must be one of the five
box-like subtypes; the color `/IC or /C` must be black; the opacity
(`/CA` if present, else `/ca`, else `1`) vetoes only when it parses
and is below `0.9` — a parse failure is passed over. -/
def _looks_like_black_box (annot : Annot) : Bool :=
  match annot.subtype with
  | none => false
  | some st =>
    if st ∈ ["/Square", "/Polygon", "/Highlight", "/Ink", "/Stamp"] then
      if _is_black (pyOr annot.IC annot.C) then
        match parseNum (annot.CA.getD (annot.ca.getD (Token.num 1))) with
        | some v => if v < mkRat 9 10 then false else true
        | none => true
      else false
    else false

/-- The loop body of `_remove_redaction_annots`: walks the annotation
list, counting the dropped entries and collecting the kept ones in
order. -/
def filterAnnots (aggressive : Bool) : List Annot → ℕ × List Annot
  | [] => (0, [])
  | a :: rest =>
    let r := filterAnnots aggressive rest
    if a.subtype = some "/Redact" then (r.1 + 1, r.2)
    else if aggressive && _looks_like_black_box a then (r.1 + 1, r.2)
    else (r.1, a :: r.2)

/-- `_remove_redaction_annots(page, aggressive)`: returns the removed
count and the mutated page.  A missing or empty (falsy) list is an
early return; a non-empty kept list is written back; an empty kept
list removes the `/Annots` key. -/
def _remove_redaction_annots (page : Page) (aggressive : Bool) : ℕ × Page :=
  match page.annots with
  | none => (0, page)
  | some l =>
    if l.isEmpty then (0, page)
    else
      let rk := filterAnnots aggressive l
      if rk.2.isEmpty then (rk.1, { page with annots := none })
      else (rk.1, { page with annots := some rk.2 })

/-- `_is_black_color(color, tol)`: falsy (empty) sequence is not black;
otherwise `all(float(c) <= tol)` with `float` failures caught to `False`. -/
def _is_black_color (color : List Token) (tol : ℚ) : Bool :=
  if color.isEmpty then false
  else
    match color.mapM parseNum with
    | some vals => vals.all (fun cv => decide (cv ≤ tol))
    | none => false

/-- The scan state of `_remove_black_rectangles`: removal set, current
path record, current fill color and the save/restore color stack
(top at the head). -/
structure ScanState where
  removeIndices : Finset ℕ
  pathIndices : List ℕ
  pathRects : List (ℚ × ℚ)
  pathHasNonRect : Bool
  fillColor : ℚ × ℚ × ℚ
  colorStack : List (ℚ × ℚ × ℚ)
deriving DecidableEq

/-- `reset_path()`. -/
def resetPath (s : ScanState) : ScanState :=
  { s with pathIndices := [], pathRects := [], pathHasNonRect := false }

/-- The `re` operand unpacking `_x, _y, w, h = map(float, operands)`:
succeeds only on exactly four operands, all numeric. -/
def parseRect (operands : List Token) : Option (ℚ × ℚ) :=
  match operands with
  | [t₁, t₂, t₃, t₄] =>
    match parseNum t₁, parseNum t₂, parseNum t₃, parseNum t₄ with
    | some _, some _, some w, some hv => some (w, hv)
    | _, _, _, _ => none
  | _ => none

/-- The fill color tuple as the sequence `_is_black_color` receives. -/
def colorToList (cl : ℚ × ℚ × ℚ) : List Token :=
  [.num cl.1, .num cl.2.1, .num cl.2.2]

/-- One iteration of the operator loop of `_remove_black_rectangles`.
`Except.error` marks an uncaught exception (non-numeric or missing
operand of `g`/`rg`). -/
def step (aggressive : Bool) (min_width min_height : ℚ)
    (s : ScanState) (idx : ℕ) (op : Op) : Except Unit ScanState :=
  match op.operator with
  | .q => .ok { s with colorStack := s.fillColor :: s.colorStack }
  | .Q =>
    match s.colorStack with
    | cl :: rest => .ok { s with fillColor := cl, colorStack := rest }
    | [] => .ok { s with fillColor := (0, 0, 0), colorStack := [] }
  | .g =>
    match op.operands with
    | t :: _ =>
      match parseNum t with
      | some gray => .ok { s with fillColor := (gray, gray, gray) }
      | none => .error ()
    | [] => .error ()
  | .rg =>
    match op.operands with
    | t₁ :: t₂ :: t₃ :: _ =>
      match parseNum t₁, parseNum t₂, parseNum t₃ with
      | some rv, some gv, some bv => .ok { s with fillColor := (rv, gv, bv) }
      | _, _, _ => .error ()
    | _ => .error ()
  | .re =>
    match parseRect op.operands with
    | some wh =>
      .ok { s with pathIndices := s.pathIndices ++ [idx],
                   pathRects := s.pathRects ++ [wh] }
    | none =>
      .ok { s with pathIndices := s.pathIndices ++ [idx], pathHasNonRect := true }
  | .m | .l | .c | .v | .y | .h =>
    .ok { s with pathIndices := s.pathIndices ++ [idx], pathHasNonRect := true }
  | .f | .fStar | .F | .B | .BStar =>
    if s.pathIndices.isEmpty then .ok (resetPath s)
    else
      let should_remove :=
        if !s.pathHasNonRect && _is_black_color (colorToList s.fillColor) (mkRat 2 100) then
          if aggressive then true
          else s.pathRects.any
            (fun wh => decide (min_width ≤ wh.1) && decide (min_height ≤ wh.2))
        else false
      if should_remove then
        .ok (resetPath
          { s with removeIndices := s.removeIndices ∪ s.pathIndices.toFinset ∪ {idx} })
      else .ok (resetPath s)
  | .n | .W | .WStar | .S | .s => .ok (resetPath s)
  | .other _ => .ok s

/-- The whole operator loop, from state `s` at operation index `idx`. -/
def scanOps (aggressive : Bool) (min_width min_height : ℚ) :
    ScanState → ℕ → List Op → Except Unit ScanState
  | s, _, [] => .ok s
  | s, idx, op :: rest =>
    match step aggressive min_width min_height s idx op with
    | .ok s₂ => scanOps aggressive min_width min_height s₂ (idx + 1) rest
    | .error e => .error e

/-- `fill_color = (0,0,0); color_stack = [fill_color]` plus the empty
path record and removal set. -/
def initState : ScanState :=
  { removeIndices := ∅, pathIndices := [], pathRects := [],
    pathHasNonRect := false, fillColor := (0, 0, 0), colorStack := [(0, 0, 0)] }

/-- `[op for i, op in enumerate(operations) if i not in remove_indices]`. -/
def filterOps (ops : List Op) (rm : Finset ℕ) : List Op :=
  (ops.enum.filter (fun p => decide (p.1 ∉ rm))).map Prod.snd

/-- `_remove_black_rectangles(page, reader, aggressive, min_width, min_height)`:
no content stream returns 0; an empty removal set returns 0 without
rewriting; otherwise the filtered operations are written back. -/
def _remove_black_rectangles (page : Page) (aggressive : Bool)
    (min_width min_height : ℚ) : Except Unit (ℕ × Page) :=
  match page.contents with
  | none => .ok (0, page)
  | some operations =>
    match scanOps aggressive min_width min_height initState 0 operations with
    | .error e => .error e
    | .ok s =>
      if s.removeIndices = ∅ then .ok (0, page)
      else .ok (s.removeIndices.card,
        { page with contents := some (filterOps operations s.removeIndices) })

deriving instance DecidableEq for Except

/-! ## Helper lemmas about the annotation filter -/

/-- The removal condition of the loop body of `_remove_redaction_annots`,
as a single predicate. -/
def removeAnnotPred (aggressive : Bool) (a : Annot) : Bool :=
  decide (a.subtype = some "/Redact") || (aggressive && _looks_like_black_box a)

lemma filterAnnots_eq (aggressive : Bool) (l : List Annot) :
    filterAnnots aggressive l =
      (l.countP (removeAnnotPred aggressive),
       l.filter (fun a => !removeAnnotPred aggressive a)) := by
  induction l with
  | nil => simp [filterAnnots]
  | cons a rest ih =>
    simp only [filterAnnots, ih, List.countP_cons, List.filter_cons]
    by_cases h₁ : a.subtype = some "/Redact"
    · simp [removeAnnotPred, h₁]
    · by_cases h₂ : (aggressive && _looks_like_black_box a) = true
      · simp [removeAnnotPred, h₁, h₂]
      · simp [removeAnnotPred, h₁, h₂]

lemma filterAnnots_of_kept (aggressive : Bool) (l : List Annot) :
    filterAnnots aggressive (l.filter (fun a => !removeAnnotPred aggressive a)) =
      (0, l.filter (fun a => !removeAnnotPred aggressive a)) := by
  rw [filterAnnots_eq]
  simp only [Prod.mk.injEq]
  constructor
  · rw [List.countP_eq_zero]
    intro a ha
    have := List.of_mem_filter ha
    simpa using this
  · rw [List.filter_filter]
    simp

/-! ## Claim theorems: annotation side -/

/-- Claim C9.  The stream-path black test at tolerance `0.02 = mkRat 2 100`
accepts the fill color `(0.02, 0.02, 0.02)` (every channel at most the
tolerance) and rejects `(0.021, 0, 0)`. -/
theorem C9_tolerance_boundary :
    _is_black_color [.num (mkRat 2 100), .num (mkRat 2 100), .num (mkRat 2 100)]
        (mkRat 2 100) = true ∧
    _is_black_color [.num (mkRat 21 1000), .num 0, .num 0] (mkRat 2 100) = false := by
  decide

/-- Concrete annotation used for claim C1: eligible subtype, all-zero
interior color, and an opacity value on which `float` raises. -/
def annotC1 : Annot :=
  { subtype := some "/Square", IC := some [.num 0, .num 0, .num 0],
    C := none, CA := some .nonNum, ca := none }

/-- Claim C1, counterexample.  An eligible annotation with all-zero
interior color and an unparseable opacity IS classified as a black box,
and the aggressive filter removes it — the claim says it is kept. -/
theorem C1_counterexample :
    _looks_like_black_box annotC1 = true ∧
    _remove_redaction_annots { annots := some [annotC1], contents := none } true =
      (1, { annots := none, contents := none }) := by
  decide

/-- Claim C1 as amended.  When the opacity value fails to parse, the
opacity veto is skipped: an annotation of an eligible subtype with a
black interior/fill color is still classified as a black box and is
removed (not kept) by the aggressive filter.  Only color parse failures
fail toward keeping. -/
theorem C1_amended_holds (a : Annot) (st : String)
    (hst : a.subtype = some st)
    (hmem : st ∈ ["/Square", "/Polygon", "/Highlight", "/Ink", "/Stamp"])
    (hblack : _is_black (pyOr a.IC a.C) = true)
    (hop : parseNum (a.CA.getD (a.ca.getD (Token.num 1))) = none) :
    _looks_like_black_box a = true ∧
    ∀ (co : Option (List Op)),
      (_remove_redaction_annots { annots := some [a], contents := co } true).1 = 1 := by
  have hbox : _looks_like_black_box a = true := by
    simp [_looks_like_black_box, hst, hop, hmem, hblack]
  refine ⟨hbox, fun co => ?_⟩
  have hne : st ≠ "/Redact" := by
    intro h
    rw [h] at hmem
    simp at hmem
  have hsub : a.subtype ≠ some "/Redact" := by
    rw [hst]
    intro h
    exact hne (Option.some.injEq _ _ ▸ h)
  simp [_remove_redaction_annots, filterAnnots, hsub, hbox]

theorem C1_witness :
    _looks_like_black_box annotC1 = true ∧
    (_remove_redaction_annots { annots := some [annotC1], contents := none } true).1 = 1 :=
  have h := C1_amended_holds annotC1 "/Square" (by decide) (by decide) (by decide) (by decide)
  ⟨h.1, h.2 none⟩

/-- Claim C10.  When the interior-color key is absent or an empty array
and the fill-color key holds an empty array, the color that reaches
`_is_black` is the empty sequence, whose components are vacuously all
zero; with no opacity keys the default `1` applies, so the annotation is
classified as a black box and the aggressive filter removes it. -/
theorem C10_empty_color_removed (a : Annot) (st : String)
    (hst : a.subtype = some st)
    (hmem : st ∈ ["/Square", "/Polygon", "/Highlight", "/Ink", "/Stamp"])
    (hic : a.IC = none ∨ a.IC = some [])
    (hc : a.C = some [])
    (hca : a.CA = none) (hca₂ : a.ca = none) :
    _looks_like_black_box a = true ∧
    ∀ (co : Option (List Op)),
      _remove_redaction_annots { annots := some [a], contents := co } true =
        (1, { annots := none, contents := co }) := by
  have hcolor : pyOr a.IC a.C = some [] := by
    rcases hic with h | h <;> simp [pyOr, h, hc]
  have hbox : _looks_like_black_box a = true := by
    have hblack : _is_black (pyOr a.IC a.C) = true := by
      rw [hcolor]
      decide
    simp only [_looks_like_black_box, hst, hmem, hblack, hca, hca₂, parseNum,
      if_true, Option.getD_none, Option.getD_some, if_pos]
    decide
  refine ⟨hbox, fun co => ?_⟩
  have hne : st ≠ "/Redact" := by
    intro h
    rw [h] at hmem
    simp at hmem
  have hsub : a.subtype ≠ some "/Redact" := by
    rw [hst]
    intro h
    exact hne (Option.some.injEq _ _ ▸ h)
  simp [_remove_redaction_annots, filterAnnots, hsub, hbox]

/-- Concrete annotation used for the witness of claim C10. -/
def annotC10 : Annot :=
  { subtype := some "/Highlight", IC := some [], C := some [],
    CA := none, ca := none }

theorem C10_witness :
    _looks_like_black_box annotC10 = true ∧
    _remove_redaction_annots { annots := some [annotC10], contents := none } true =
      (1, { annots := none, contents := none }) :=
  have h := C10_empty_color_removed annotC10 "/Highlight" (by decide) (by decide)
    (Or.inr (by decide)) (by decide) (by decide) (by decide)
  ⟨h.1, h.2 none⟩

/-- Claim C4, counterexample.  A page whose annotation list is already
present and empty takes the falsy early return: the empty list survives
processing, so the page DOES end up with an empty annotation list. -/
theorem C4_counterexample :
    (_remove_redaction_annots { annots := some [], contents := none } true).2.annots =
      some [] := by
  decide

/-- Claim C4 as amended.  For every page whose annotation list is not
present-and-empty, after processing the list is either absent or
non-empty — absent when the kept subset is empty, and otherwise exactly
the kept subset in original relative order.  A page that enters with an
empty annotation list keeps it unchanged (the falsy early return). -/
theorem C4_amended_holds (page : Page) (aggressive : Bool)
    (hne : page.annots ≠ some []) :
    (_remove_redaction_annots page aggressive).2.annots ≠ some [] ∧
    ∀ l, page.annots = some l →
      (_remove_redaction_annots page aggressive).2.annots =
        (if (l.filter (fun a => !removeAnnotPred aggressive a)).isEmpty then none
         else some (l.filter (fun a => !removeAnnotPred aggressive a))) := by
  obtain ⟨an, co⟩ := page
  cases an with
  | none => simp [_remove_redaction_annots]
  | some l =>
    have hl : ¬ l.isEmpty := by
      simp only [ne_eq, Option.some.injEq] at hne
      simpa [List.isEmpty_iff] using hne
    constructor
    · simp only [_remove_redaction_annots, hl, if_false, Bool.false_eq_true]
      by_cases hk : (filterAnnots aggressive l).2.isEmpty
      · simp [hk]
      · simp only [hk, Bool.false_eq_true, if_false, ne_eq, Option.some.injEq]
        intro h
        rw [h] at hk
        simp at hk
    · intro l₂ hl₂
      simp only [Option.some.injEq] at hl₂
      subst hl₂
      simp only [_remove_redaction_annots, hl, if_false, Bool.false_eq_true]
      rw [filterAnnots_eq]
      by_cases hk : (l.filter (fun a => !removeAnnotPred aggressive a)).isEmpty
      · simp [hk]
      · simp [hk]

/-- A redaction-marker annotation and a page holding it, used for the
witness of claim C4. -/
def annotC4 : Annot :=
  { subtype := some "/Redact", IC := none, C := none, CA := none, ca := none }

def pageC4 : Page := { annots := some [annotC4], contents := none }

theorem C4_witness :
    (_remove_redaction_annots pageC4 true).2.annots ≠ some [] ∧
    (_remove_redaction_annots pageC4 true).2.annots =
      (if (([annotC4].filter (fun a => !removeAnnotPred true a)).isEmpty) then none
       else some ([annotC4].filter (fun a => !removeAnnotPred true a))) :=
  have h := C4_amended_holds pageC4 true (by decide)
  ⟨h.1, h.2 [annotC4] (by decide)⟩

/-- Claim C5.  The annotation filter is idempotent: a second run on the
page produced by a first run removes nothing and leaves the page
unchanged. -/
theorem C5_idempotent (page : Page) (aggressive : Bool) :
    _remove_redaction_annots (_remove_redaction_annots page aggressive).2 aggressive =
      (0, (_remove_redaction_annots page aggressive).2) := by
  obtain ⟨an, co⟩ := page
  cases an with
  | none => simp [_remove_redaction_annots]
  | some l =>
    by_cases hl : l.isEmpty
    · simp [_remove_redaction_annots, hl]
    · simp only [_remove_redaction_annots, hl, Bool.false_eq_true, if_false]
      rw [filterAnnots_eq]
      by_cases hk : (l.filter (fun a => !removeAnnotPred aggressive a)).isEmpty
      · simp [hk, _remove_redaction_annots]
      · simp only [hk, Bool.false_eq_true, if_false]
        rw [filterAnnots_of_kept]
        simp [hk]

/-! ## Claim theorems: content-stream side -/

/-- The operation sequence of Scenario A:
`q  0 0 0 rg  10 10 100 50 re  f  Q`. -/
def opsScenarioA : List Op :=
  [{ operands := [], operator := .q },
   { operands := [.num 0, .num 0, .num 0], operator := .rg },
   { operands := [.num 10, .num 10, .num 100, .num 50], operator := .re },
   { operands := [], operator := .f },
   { operands := [], operator := .Q }]

def pageScenarioA : Page := { annots := none, contents := some opsScenarioA }

/-- The stream Scenario A leaves behind: `q rg Q`. -/
def outputScenarioA : List Op :=
  [{ operands := [], operator := .q },
   { operands := [.num 0, .num 0, .num 0], operator := .rg },
   { operands := [], operator := .Q }]

/-- Claim C2, counterexample.  On Scenario A in aggressive mode the
rewritten stream is `q rg Q`, not just the `q`/`Q` pair: the `rg`
fill-color operation survives, so the output is NOT empty apart from
`q`/`Q`. -/
theorem C2_counterexample :
    _remove_black_rectangles pageScenarioA true 5 5 =
      .ok (2, { pageScenarioA with contents := some outputScenarioA }) ∧
    outputScenarioA.filter
        (fun op => !(decide (op.operator = Operator.q) ||
                      decide (op.operator = Operator.Q))) ≠ [] := by
  decide

/-- Claim C2 as amended.  On Scenario A in aggressive mode exactly the
`re` (index 2) and `f` (index 3) operations are marked, the removed-op
count is 2, and the output stream is `q rg Q` — empty apart from the
`q`/`Q` pair and the surviving `rg` fill-color operation. -/
theorem C2_amended_holds :
    scanOps true 5 5 initState 0 opsScenarioA =
      .ok { removeIndices := {2, 3}, pathIndices := [], pathRects := [],
            pathHasNonRect := false, fillColor := (0, 0, 0), colorStack := [(0, 0, 0)] } ∧
    _remove_black_rectangles pageScenarioA true 5 5 =
      .ok (2, { pageScenarioA with contents := some outputScenarioA }) := by
  decide

/-- Claim C7.  A page with no content stream yields 0 and no mutation,
and a scan that marks no indices yields 0 and leaves the page exactly
as it was (no rewrite of the content stream). -/
theorem C7_zero_removal_no_mutation (page : Page) (aggressive : Bool)
    (min_width min_height : ℚ) :
    (page.contents = none →
      _remove_black_rectangles page aggressive min_width min_height = .ok (0, page)) ∧
    (∀ ops s, page.contents = some ops →
      scanOps aggressive min_width min_height initState 0 ops = .ok s →
      s.removeIndices = ∅ →
      _remove_black_rectangles page aggressive min_width min_height = .ok (0, page)) := by
  constructor
  · intro h
    simp [_remove_black_rectangles, h]
  · intro ops s h hs hemp
    simp [_remove_black_rectangles, h, hs, hemp]

def pageC7a : Page := { annots := none, contents := none }

def pageC7b : Page :=
  { annots := none, contents := some [{ operands := [], operator := Operator.q }] }

theorem C7_witness :
    _remove_black_rectangles pageC7a true 5 5 = .ok (0, pageC7a) ∧
    _remove_black_rectangles pageC7b true 5 5 = .ok (0, pageC7b) :=
  ⟨(C7_zero_removal_no_mutation pageC7a true 5 5).1 rfl,
   (C7_zero_removal_no_mutation pageC7b true 5 5).2
     [{ operands := [], operator := Operator.q }]
     { removeIndices := ∅, pathIndices := [], pathRects := [], pathHasNonRect := false,
       fillColor := (0, 0, 0), colorStack := [(0, 0, 0), (0, 0, 0)] }
     rfl (by decide) (by decide)⟩

/-- Whether a scan ran to completion without an uncaught exception. -/
def isOkScan (e : Except Unit ScanState) : Bool :=
  match e with
  | .ok _ => true
  | .error _ => false

lemma scan_qQ_total (aggressive : Bool) (mw mh : ℚ) :
    ∀ (ops : List Op) (s : ScanState) (idx : ℕ),
      (∀ op ∈ ops, op.operator = Operator.q ∨ op.operator = Operator.Q) →
      isOkScan (scanOps aggressive mw mh s idx ops) = true := by
  intro ops
  induction ops with
  | nil =>
    intro s idx _
    simp [scanOps, isOkScan]
  | cons op rest ih =>
    intro s idx h
    have hop := h op (List.mem_cons_self _ _)
    have hrest : ∀ o ∈ rest, o.operator = Operator.q ∨ o.operator = Operator.Q :=
      fun o ho => h o (List.mem_cons_of_mem _ ho)
    rcases hop with hq | hQ
    · simp only [scanOps, step, hq]
      exact ih _ _ hrest
    · simp only [scanOps, step, hQ]
      rcases hcs : s.colorStack with _ | ⟨cl, cs⟩ <;> simp only [hcs] <;> exact ih _ _ hrest

/-- Claim C8.  Processing a restore operator with an empty color stack
resets the fill color to default black and never fails; more generally
the scan is total (never an uncaught exception) on every sequence of
save/restore operations, however unbalanced. -/
theorem C8_restore_empty_stack (s : ScanState) (idx : ℕ) (operands : List Token)
    (aggressive : Bool) (min_width min_height : ℚ) :
    (s.colorStack = [] →
      step aggressive min_width min_height s idx { operands := operands, operator := .Q } =
        .ok { s with fillColor := (0, 0, 0), colorStack := [] }) ∧
    (∀ (ops : List Op) (idx₂ : ℕ),
      (∀ op ∈ ops, op.operator = Operator.q ∨ op.operator = Operator.Q) →
      isOkScan (scanOps aggressive min_width min_height s idx₂ ops) = true) := by
  constructor
  · intro h
    simp [step, h]
  · intro ops idx₂ hops
    exact scan_qQ_total aggressive min_width min_height ops s idx₂ hops

/-- A state with an empty color stack and a non-black fill color, used
for the witness of claim C8. -/
def stateC8 : ScanState :=
  { removeIndices := ∅, pathIndices := [], pathRects := [], pathHasNonRect := false,
    fillColor := (1, 0, 0), colorStack := [] }

theorem C8_witness :
    step true 5 5 stateC8 0 { operands := [], operator := .Q } =
      .ok { stateC8 with fillColor := (0, 0, 0), colorStack := [] } ∧
    isOkScan (scanOps true 5 5 stateC8 0
      [{ operands := [], operator := Operator.Q },
       { operands := [], operator := Operator.Q }]) = true :=
  ⟨(C8_restore_empty_stack stateC8 0 [] true 5 5).1 rfl,
   (C8_restore_empty_stack stateC8 0 [] true 5 5).2 _ 0 (by decide)⟩

/-! ## Claim C3: aggressive mode removes a superset -/

/-- The fill/paint operator tags. -/
def isPaintOp (o : Operator) : Bool :=
  match o with
  | .f | .fStar | .F | .B | .BStar => true
  | _ => false

lemma step_paint_superset (min_width min_height : ℚ) (idx : ℕ) (op : Op)
    (rm₁ rm₂ : Finset ℕ) (pi₁ : List ℕ) (pr₁ : List (ℚ × ℚ)) (nr₁ : Bool)
    (fc₁ : ℚ × ℚ × ℚ) (cs₁ : List (ℚ × ℚ × ℚ)) (t₁ t₂ : ScanState)
    (hpaint : isPaintOp op.operator = true)
    (hsub : rm₁ ⊆ rm₂)
    (h₁ : step false min_width min_height ⟨rm₁, pi₁, pr₁, nr₁, fc₁, cs₁⟩ idx op = .ok t₁)
    (h₂ : step true min_width min_height ⟨rm₂, pi₁, pr₁, nr₁, fc₁, cs₁⟩ idx op = .ok t₂) :
    t₂ = { t₁ with removeIndices := t₂.removeIndices } ∧
    t₁.removeIndices ⊆ t₂.removeIndices := by
  cases hop : op.operator <;> simp [isPaintOp, hop] at hpaint
  all_goals (
    simp only [step, hop] at h₁ h₂
    cases hpi : pi₁.isEmpty with
    | true =>
      rw [if_pos hpi] at h₁ h₂
      simp only [Except.ok.injEq] at h₁ h₂
      subst h₁
      subst h₂
      exact ⟨rfl, hsub⟩
    | false =>
      rw [if_neg (by simp [hpi])] at h₁ h₂
      cases helig : (!nr₁ && _is_black_color (colorToList fc₁) (mkRat 2 100)) with
      | false =>
        simp only [helig, Bool.false_eq_true, if_false, Except.ok.injEq] at h₁ h₂
        subst h₁
        subst h₂
        exact ⟨rfl, hsub⟩
      | true =>
        simp only [helig, Bool.false_eq_true, if_false, if_true, Except.ok.injEq] at h₁ h₂
        subst h₂
        cases hany : pr₁.any
            (fun wh => decide (min_width ≤ wh.1) && decide (min_height ≤ wh.2)) with
        | true =>
          simp only [hany, Bool.false_eq_true, if_false, if_true, Except.ok.injEq] at h₁
          subst h₁
          exact ⟨rfl,
            Finset.union_subset_union
              (Finset.union_subset_union hsub (Finset.Subset.refl _))
              (Finset.Subset.refl _)⟩
        | false =>
          simp only [hany, Bool.false_eq_true, if_false, if_true, Except.ok.injEq] at h₁
          subst h₁
          refine ⟨rfl, fun a ha => ?_⟩
          exact Finset.mem_union_left _ (Finset.mem_union_left _ (hsub ha)))

lemma step_mode_superset (min_width min_height : ℚ) (idx : ℕ) (op : Op)
    (s₁ s₂ t₁ t₂ : ScanState)
    (hcore : s₂ = { s₁ with removeIndices := s₂.removeIndices })
    (hsub : s₁.removeIndices ⊆ s₂.removeIndices)
    (h₁ : step false min_width min_height s₁ idx op = .ok t₁)
    (h₂ : step true min_width min_height s₂ idx op = .ok t₂) :
    t₂ = { t₁ with removeIndices := t₂.removeIndices } ∧
    t₁.removeIndices ⊆ t₂.removeIndices := by
  obtain ⟨rm₁, pi₁, pr₁, nr₁, fc₁, cs₁⟩ := s₁
  obtain ⟨rm₂, pi₂, pr₂, nr₂, fc₂, cs₂⟩ := s₂
  simp only [ScanState.mk.injEq] at hcore
  obtain ⟨-, hpi, hpr, hnr, hfc, hcs⟩ := hcore
  subst hpi hpr hnr hfc hcs
  cases hop : op.operator
  case f =>
    exact step_paint_superset min_width min_height idx op rm₁ rm₂ pi₂ pr₂ nr₂ fc₂ cs₂
      t₁ t₂ (by simp [isPaintOp, hop]) hsub h₁ h₂
  case fStar =>
    exact step_paint_superset min_width min_height idx op rm₁ rm₂ pi₂ pr₂ nr₂ fc₂ cs₂
      t₁ t₂ (by simp [isPaintOp, hop]) hsub h₁ h₂
  case F =>
    exact step_paint_superset min_width min_height idx op rm₁ rm₂ pi₂ pr₂ nr₂ fc₂ cs₂
      t₁ t₂ (by simp [isPaintOp, hop]) hsub h₁ h₂
  case B =>
    exact step_paint_superset min_width min_height idx op rm₁ rm₂ pi₂ pr₂ nr₂ fc₂ cs₂
      t₁ t₂ (by simp [isPaintOp, hop]) hsub h₁ h₂
  case BStar =>
    exact step_paint_superset min_width min_height idx op rm₁ rm₂ pi₂ pr₂ nr₂ fc₂ cs₂
      t₁ t₂ (by simp [isPaintOp, hop]) hsub h₁ h₂
  case Q =>
    simp only [step, hop] at h₁ h₂
    cases cs₂ <;> simp only [Except.ok.injEq] at h₁ h₂ <;> subst h₁ <;> subst h₂ <;>
      exact ⟨rfl, hsub⟩
  case g =>
    simp only [step, hop] at h₁ h₂
    cases hops : op.operands with
    | nil => simp [hops] at h₁
    | cons t ts =>
      cases hpn : parseNum t with
      | none => simp [hops, hpn] at h₁
      | some gray =>
        simp only [hops, hpn, Except.ok.injEq] at h₁ h₂
        subst h₁; subst h₂
        exact ⟨rfl, hsub⟩
  case rg =>
    simp only [step, hop] at h₁ h₂
    cases hops : op.operands with
    | nil => simp [hops] at h₁
    | cons a as =>
      cases has : as with
      | nil => simp [hops, has] at h₁
      | cons b bs =>
        cases hbs : bs with
        | nil => simp [hops, has, hbs] at h₁
        | cons cc ccs =>
          cases hpa : parseNum a with
          | none => simp [hops, has, hbs, hpa] at h₁
          | some rv =>
            cases hpb : parseNum b with
            | none => simp [hops, has, hbs, hpa, hpb] at h₁
            | some gv =>
              cases hpc : parseNum cc with
              | none => simp [hops, has, hbs, hpa, hpb, hpc] at h₁
              | some bv =>
                simp only [hops, has, hbs, hpa, hpb, hpc, Except.ok.injEq] at h₁ h₂
                subst h₁; subst h₂
                exact ⟨rfl, hsub⟩
  case re =>
    simp only [step, hop] at h₁ h₂
    cases hprr : parseRect op.operands with
    | some wh =>
      simp only [hprr, Except.ok.injEq] at h₁ h₂
      subst h₁; subst h₂
      exact ⟨rfl, hsub⟩
    | none =>
      simp only [hprr, Except.ok.injEq] at h₁ h₂
      subst h₁; subst h₂
      exact ⟨rfl, hsub⟩
  all_goals (
    simp only [step, hop, Except.ok.injEq] at h₁ h₂
    subst h₁
    subst h₂
    exact ⟨rfl, hsub⟩)

lemma scan_mode_superset (min_width min_height : ℚ) :
    ∀ (ops : List Op) (idx : ℕ) (s₁ s₂ t₁ t₂ : ScanState),
      s₂ = { s₁ with removeIndices := s₂.removeIndices } →
      s₁.removeIndices ⊆ s₂.removeIndices →
      scanOps false min_width min_height s₁ idx ops = .ok t₁ →
      scanOps true min_width min_height s₂ idx ops = .ok t₂ →
      t₁.removeIndices ⊆ t₂.removeIndices := by
  intro ops
  induction ops with
  | nil =>
    intro idx s₁ s₂ t₁ t₂ hcore hsub h₁ h₂
    simp only [scanOps, Except.ok.injEq] at h₁ h₂
    subst h₁; subst h₂
    exact hsub
  | cons op rest ih =>
    intro idx s₁ s₂ t₁ t₂ hcore hsub h₁ h₂
    simp only [scanOps] at h₁ h₂
    cases hs₁ : step false min_width min_height s₁ idx op with
    | error e => simp [hs₁] at h₁
    | ok u₁ =>
      cases hs₂ : step true min_width min_height s₂ idx op with
      | error e => simp [hs₂] at h₂
      | ok u₂ =>
        simp only [hs₁] at h₁
        simp only [hs₂] at h₂
        obtain ⟨hcore₂, hsub₂⟩ :=
          step_mode_superset min_width min_height idx op s₁ s₂ u₁ u₂ hcore hsub hs₁ hs₂
        exact ih (idx + 1) u₁ u₂ t₁ t₂ hcore₂ hsub₂ h₁ h₂

/-- Claim C3.  For every operation sequence and fixed thresholds, the
set of operator indices removed by the scan in aggressive mode is a
superset of the set removed in conservative mode on the same input. -/
theorem C3_aggressive_superset (ops : List Op) (min_width min_height : ℚ)
    (s₁ s₂ : ScanState)
    (h₁ : scanOps false min_width min_height initState 0 ops = .ok s₁)
    (h₂ : scanOps true min_width min_height initState 0 ops = .ok s₂) :
    s₁.removeIndices ⊆ s₂.removeIndices :=
  scan_mode_superset min_width min_height ops 0 initState initState s₁ s₂ rfl
    (Finset.Subset.refl _) h₁ h₂

/-- Scenario C stream: a black 2 by 2 rectangle, below both thresholds. -/
def opsScenarioC : List Op :=
  [{ operands := [], operator := .q },
   { operands := [.num 0, .num 0, .num 0], operator := .rg },
   { operands := [.num 1, .num 1, .num 2, .num 2], operator := .re },
   { operands := [], operator := .f },
   { operands := [], operator := .Q }]

def stateC3c : ScanState :=
  { removeIndices := ∅, pathIndices := [], pathRects := [], pathHasNonRect := false,
    fillColor := (0, 0, 0), colorStack := [(0, 0, 0)] }

def stateC3a : ScanState :=
  { removeIndices := {2, 3}, pathIndices := [], pathRects := [], pathHasNonRect := false,
    fillColor := (0, 0, 0), colorStack := [(0, 0, 0)] }

theorem C3_witness : stateC3c.removeIndices ⊆ stateC3a.removeIndices :=
  C3_aggressive_superset opsScenarioC 5 5 stateC3c stateC3a (by decide) (by decide)

/-! ## Claim C6: non-rectangular paths are never removed -/

/-- A path-construction operation that poisons the path record: a
line/curve/move/close operator, or a rectangle operator whose operand
unpacking fails. -/
def isNonRectOp (op : Op) : Bool :=
  match op.operator with
  | .m | .l | .c | .v | .y | .h => true
  | .re => (parseRect op.operands).isNone
  | _ => false

lemma drop_cons_decomp {α : Type} (l : List α) (n : ℕ) (a : α) (rest : List α)
    (h : l.drop n = a :: rest) :
    ∃ hn : n < l.length, l.get ⟨n, hn⟩ = a ∧ l.drop (n + 1) = rest := by
  have hn : n < l.length := by
    by_contra hcon
    push_neg at hcon
    rw [List.drop_eq_nil_of_le hcon] at h
    exact List.noConfusion h
  refine ⟨hn, ?_, ?_⟩
  · have h1 := List.head?_drop l n
    rw [h, List.getElem?_eq_getElem hn] at h1
    simp only [List.head?_cons, Option.some.injEq] at h1
    simp [List.get_eq_getElem, h1]
  · have h2 := List.tail_drop l n
    rw [h] at h2
    simpa using h2.symm

/-- What a paint step can do: it always clears the path record, and it
either leaves the removal set alone or — only when the path record is
not poisoned — adds the recorded path indices and its own index. -/
lemma paint_step_cases (aggressive : Bool) (mw mh : ℚ) (s s₂ : ScanState)
    (idx : ℕ) (op : Op)
    (hpaint : isPaintOp op.operator = true)
    (hstep : step aggressive mw mh s idx op = .ok s₂) :
    s₂.pathIndices = [] ∧
    (s₂.removeIndices = s.removeIndices ∨
      (s.pathHasNonRect = false ∧
        s₂.removeIndices = s.removeIndices ∪ s.pathIndices.toFinset ∪ {idx})) := by
  cases hop : op.operator <;> simp [isPaintOp, hop] at hpaint
  all_goals (
    simp only [step, hop] at hstep
    cases hpi : s.pathIndices.isEmpty with
    | true =>
      rw [if_pos hpi] at hstep
      simp only [Except.ok.injEq] at hstep
      subst hstep
      exact ⟨rfl, Or.inl rfl⟩
    | false =>
      rw [if_neg (by simp [hpi])] at hstep
      cases helig : (!s.pathHasNonRect && _is_black_color (colorToList s.fillColor) (mkRat 2 100)) with
      | false =>
        simp only [helig, Bool.false_eq_true, if_false, Except.ok.injEq] at hstep
        subst hstep
        exact ⟨rfl, Or.inl rfl⟩
      | true =>
        have hnr₀ : s.pathHasNonRect = false := by
          have := (Bool.and_eq_true _ _).mp helig
          simpa using this.1
        cases haggr : aggressive with
        | true =>
          simp only [helig, haggr, if_true, Except.ok.injEq] at hstep
          subst hstep
          exact ⟨rfl, Or.inr ⟨hnr₀, rfl⟩⟩
        | false =>
          cases hany : s.pathRects.any
              (fun wh => decide (mw ≤ wh.1) && decide (mh ≤ wh.2)) with
          | true =>
            simp only [helig, haggr, hany, Bool.false_eq_true, if_false, if_true,
              Except.ok.injEq] at hstep
            subst hstep
            exact ⟨rfl, Or.inr ⟨hnr₀, rfl⟩⟩
          | false =>
            simp only [helig, haggr, hany, Bool.false_eq_true, if_false, if_true,
              Except.ok.injEq] at hstep
            subst hstep
            exact ⟨rfl, Or.inl rfl⟩)


lemma isNonRect_paint_false (op : Op) (hpaint : isPaintOp op.operator = true)
    (hnr : isNonRectOp op = true) : False := by
  cases hop : op.operator <;> simp [isPaintOp, hop] at hpaint <;>
    simp [isNonRectOp, hop] at hnr

lemma paint_invariant_from_cases (aggressive : Bool) (mw mh : ℚ) (ops : List Op)
    (s s₂ : ScanState) (idx : ℕ) (op : Op)
    (hlen : idx < ops.length) (hget : ops.get ⟨idx, hlen⟩ = op)
    (hpaint : isPaintOp op.operator = true)
    (hstep : step aggressive mw mh s idx op = .ok s₂)
    (hinv1 : ∀ i ∈ s.pathIndices, ∀ hi : i < ops.length,
      isNonRectOp (ops.get ⟨i, hi⟩) = true → s.pathHasNonRect = true)
    (hinv2 : ∀ i, ∀ hi : i < ops.length, isNonRectOp (ops.get ⟨i, hi⟩) = true →
      i ∉ s.removeIndices) :
    (∀ i ∈ s₂.pathIndices, ∀ hi : i < ops.length,
      isNonRectOp (ops.get ⟨i, hi⟩) = true → s₂.pathHasNonRect = true) ∧
    (∀ i, ∀ hi : i < ops.length, isNonRectOp (ops.get ⟨i, hi⟩) = true →
      i ∉ s₂.removeIndices) := by
  obtain ⟨hpi₂, hrm⟩ := paint_step_cases aggressive mw mh s s₂ idx op hpaint hstep
  constructor
  · intro i him hi hnr
    rw [hpi₂] at him
    simp at him
  · intro i hi hnr
    rcases hrm with hrm | ⟨hnr₀, hrm⟩
    · rw [hrm]
      exact hinv2 i hi hnr
    · rw [hrm]
      intro hmem
      rw [Finset.mem_union, Finset.mem_union, Finset.mem_singleton] at hmem
      rcases hmem with (hmem | hmem) | hmem
      · exact hinv2 i hi hnr hmem
      · have h₁ := hinv1 i (List.mem_toFinset.mp hmem) hi hnr
        rw [hnr₀] at h₁
        exact Bool.noConfusion h₁
      · subst hmem
        have hgi : ops.get ⟨i, hi⟩ = op := hget
        rw [hgi] at hnr
        exact isNonRect_paint_false op hpaint hnr


lemma scan_nonrect_aux (aggressive : Bool) (mw mh : ℚ) (ops : List Op) :
    ∀ (rest : List Op) (idx : ℕ) (s : ScanState),
      ops.drop idx = rest →
      (∀ i ∈ s.pathIndices, ∀ hi : i < ops.length,
        isNonRectOp (ops.get ⟨i, hi⟩) = true → s.pathHasNonRect = true) →
      (∀ i, ∀ hi : i < ops.length, isNonRectOp (ops.get ⟨i, hi⟩) = true →
        i ∉ s.removeIndices) →
      ∀ t, scanOps aggressive mw mh s idx rest = .ok t →
        ∀ i, ∀ hi : i < ops.length, isNonRectOp (ops.get ⟨i, hi⟩) = true →
          i ∉ t.removeIndices := by
  intro rest
  induction rest with
  | nil =>
    intro idx s hdrop hinv1 hinv2 t ht
    simp only [scanOps, Except.ok.injEq] at ht
    subst ht
    exact hinv2
  | cons op rest₂ ih =>
    intro idx s hdrop hinv1 hinv2 t ht
    obtain ⟨hlen, hget, hdrop₂⟩ := drop_cons_decomp ops idx op rest₂ hdrop
    simp only [scanOps] at ht
    cases hstep : step aggressive mw mh s idx op with
    | error e => simp [hstep] at ht
    | ok s₂ =>
      simp only [hstep] at ht
      have hinvs : (∀ i ∈ s₂.pathIndices, ∀ hi : i < ops.length,
          isNonRectOp (ops.get ⟨i, hi⟩) = true → s₂.pathHasNonRect = true) ∧
          (∀ i, ∀ hi : i < ops.length, isNonRectOp (ops.get ⟨i, hi⟩) = true →
            i ∉ s₂.removeIndices) := by
        cases hop : op.operator
        case q =>
          simp only [step, hop, Except.ok.injEq] at hstep
          subst hstep
          exact ⟨hinv1, hinv2⟩
        case Q =>
          cases hcs : s.colorStack <;>
            simp only [step, hop, hcs, Except.ok.injEq] at hstep <;>
            subst hstep <;> exact ⟨hinv1, hinv2⟩
        case g =>
          cases hops : op.operands with
          | nil => simp [step, hop, hops] at hstep
          | cons tk ts =>
            cases hpn : parseNum tk with
            | none => simp [step, hop, hops, hpn] at hstep
            | some gray =>
              simp only [step, hop, hops, hpn, Except.ok.injEq] at hstep
              subst hstep
              exact ⟨hinv1, hinv2⟩
        case rg =>
          cases hops : op.operands with
          | nil => simp [step, hop, hops] at hstep
          | cons a as =>
            cases has : as with
            | nil => simp [step, hop, hops, has] at hstep
            | cons b bs =>
              cases hbs : bs with
              | nil => simp [step, hop, hops, has, hbs] at hstep
              | cons cc ccs =>
                cases hpa : parseNum a with
                | none => simp [step, hop, hops, has, hbs, hpa] at hstep
                | some rv =>
                  cases hpb : parseNum b with
                  | none => simp [step, hop, hops, has, hbs, hpa, hpb] at hstep
                  | some gv =>
                    cases hpc : parseNum cc with
                    | none => simp [step, hop, hops, has, hbs, hpa, hpb, hpc] at hstep
                    | some bv =>
                      simp only [step, hop, hops, has, hbs, hpa, hpb, hpc,
                        Except.ok.injEq] at hstep
                      subst hstep
                      exact ⟨hinv1, hinv2⟩
        case re =>
          cases hprr : parseRect op.operands with
          | some wh =>
            simp only [step, hop, hprr, Except.ok.injEq] at hstep
            subst hstep
            constructor
            · intro i him hi hnr
              rcases List.mem_append.mp him with hmem | hmem
              · exact hinv1 i hmem hi hnr
              · have hidx : i = idx := by simpa using hmem
                subst hidx
                have hgi : ops.get ⟨i, hi⟩ = op := hget
                rw [hgi] at hnr
                simp [isNonRectOp, hop, hprr] at hnr
            · exact hinv2
          | none =>
            simp only [step, hop, hprr, Except.ok.injEq] at hstep
            subst hstep
            exact ⟨fun i him hi hnr => rfl, hinv2⟩
        case m =>
          simp only [step, hop, Except.ok.injEq] at hstep
          subst hstep
          exact ⟨fun i him hi hnr => rfl, hinv2⟩
        case l =>
          simp only [step, hop, Except.ok.injEq] at hstep
          subst hstep
          exact ⟨fun i him hi hnr => rfl, hinv2⟩
        case c =>
          simp only [step, hop, Except.ok.injEq] at hstep
          subst hstep
          exact ⟨fun i him hi hnr => rfl, hinv2⟩
        case v =>
          simp only [step, hop, Except.ok.injEq] at hstep
          subst hstep
          exact ⟨fun i him hi hnr => rfl, hinv2⟩
        case y =>
          simp only [step, hop, Except.ok.injEq] at hstep
          subst hstep
          exact ⟨fun i him hi hnr => rfl, hinv2⟩
        case h =>
          simp only [step, hop, Except.ok.injEq] at hstep
          subst hstep
          exact ⟨fun i him hi hnr => rfl, hinv2⟩
        case f =>
          exact paint_invariant_from_cases aggressive mw mh ops s s₂ idx op hlen hget
            (by simp [isPaintOp, hop]) hstep hinv1 hinv2
        case fStar =>
          exact paint_invariant_from_cases aggressive mw mh ops s s₂ idx op hlen hget
            (by simp [isPaintOp, hop]) hstep hinv1 hinv2
        case F =>
          exact paint_invariant_from_cases aggressive mw mh ops s s₂ idx op hlen hget
            (by simp [isPaintOp, hop]) hstep hinv1 hinv2
        case B =>
          exact paint_invariant_from_cases aggressive mw mh ops s s₂ idx op hlen hget
            (by simp [isPaintOp, hop]) hstep hinv1 hinv2
        case BStar =>
          exact paint_invariant_from_cases aggressive mw mh ops s s₂ idx op hlen hget
            (by simp [isPaintOp, hop]) hstep hinv1 hinv2
        case n =>
          simp only [step, hop, Except.ok.injEq] at hstep
          subst hstep
          exact ⟨fun i him hi hnr => absurd him (by simp [resetPath]), hinv2⟩
        case W =>
          simp only [step, hop, Except.ok.injEq] at hstep
          subst hstep
          exact ⟨fun i him hi hnr => absurd him (by simp [resetPath]), hinv2⟩
        case WStar =>
          simp only [step, hop, Except.ok.injEq] at hstep
          subst hstep
          exact ⟨fun i him hi hnr => absurd him (by simp [resetPath]), hinv2⟩
        case S =>
          simp only [step, hop, Except.ok.injEq] at hstep
          subst hstep
          exact ⟨fun i him hi hnr => absurd him (by simp [resetPath]), hinv2⟩
        case s =>
          simp only [step, hop, Except.ok.injEq] at hstep
          subst hstep
          exact ⟨fun i him hi hnr => absurd him (by simp [resetPath]), hinv2⟩
        case other =>
          simp only [step, hop, Except.ok.injEq] at hstep
          subst hstep
          exact ⟨hinv1, hinv2⟩
      exact ih (idx + 1) s₂ hdrop₂ hinvs.1 hinvs.2 t ht


/-- Claim C6.  A non-rectangle construction operation (line, curve,
move, close, or a rectangle whose operands fail parsing) is never in
the removal set, whatever the mode, fill colors or recorded rectangle
sizes; and a paint step on a poisoned path record only clears the
record, leaving the removal set untouched. -/
theorem C6_nonrect_never_removed (ops : List Op) (aggressive : Bool) (mw mh : ℚ)
    (t : ScanState)
    (hscan : scanOps aggressive mw mh initState 0 ops = .ok t) :
    (∀ i, ∀ hi : i < ops.length, isNonRectOp (ops.get ⟨i, hi⟩) = true →
      i ∉ t.removeIndices) ∧
    (∀ (s : ScanState) (idx : ℕ) (op : Op),
      isPaintOp op.operator = true → s.pathHasNonRect = true →
      step aggressive mw mh s idx op = .ok (resetPath s)) := by
  constructor
  · exact scan_nonrect_aux aggressive mw mh ops ops 0 initState rfl
      (fun i him => absurd him (by simp [initState]))
      (fun i hi hnr => by simp [initState])
      t hscan
  · intro s idx op hp hnr
    cases hop : op.operator <;> simp [isPaintOp, hop] at hp
    all_goals (
      simp only [step, hop]
      cases hpi : s.pathIndices.isEmpty with
      | true => simp
      | false => simp [hnr])

/-- Stream with an `m` segment then a fill, for the witness of C6. -/
def opsC6 : List Op :=
  [{ operands := [], operator := .m }, { operands := [], operator := .f }]

def stateC6 : ScanState :=
  { removeIndices := ∅, pathIndices := [], pathRects := [], pathHasNonRect := false,
    fillColor := (0, 0, 0), colorStack := [(0, 0, 0)] }

def stateC6mid : ScanState :=
  { removeIndices := ∅, pathIndices := [0], pathRects := [], pathHasNonRect := true,
    fillColor := (0, 0, 0), colorStack := [(0, 0, 0)] }

theorem C6_witness :
    (0 ∉ stateC6.removeIndices) ∧
    step true 5 5 stateC6mid 1 { operands := [], operator := .f } =
      .ok (resetPath stateC6mid) :=
  ⟨(C6_nonrect_never_removed opsC6 true 5 5 stateC6 (by decide)).1 0 (by decide) (by decide),
   (C6_nonrect_never_removed opsC6 true 5 5 stateC6 (by decide)).2 stateC6mid 1
     { operands := [], operator := .f } (by decide) (by decide)⟩

end Unredact
